import Mathlib

/-!
Verification of the bounded-buffer producer/consumer program (src/main.c).

The program spawns one producer thread and one consumer thread over a shared
buffer of MAX_BUFFER_SIZE (= 100) long-double slots, coordinated by two
counting semaphores (`empty_semaphore`, initialised to MAX_BUFFER_SIZE, and
`full_semaphore`, initialised to 0) and one pthread mutex `lock`.

We give a shallow embedding:
* `produce_item` mirrors the recursive workload generator (exact integer
  arithmetic in place of C `long double`);
* the two thread bodies are embedded as small-step transition functions
  `producer_step` / `consumer_step` over an explicit shared-state record
  `SysState`, with interleaving captured by an inductive reachability
  predicate `Reach` and by schedules (`runSched`);
* `main`'s linear initialise / join / teardown sequence is embedded as
  `runMain` over an abstract failure scenario.

The embedding is parameterised by the loop bound `N` and the buffer
capacity `cap`; in the C source both are the single constant
MAX_BUFFER_SIZE = 100 (`MAX_BUFFER_SIZE` below).
-/

namespace BoundedBuffer

/-- MAX_BUFFER_SIZE from src/main.c line 15. -/
def MAX_BUFFER_SIZE : Nat := 100

/-!
## The workload generator `produce_item`

C source (lines 37-39):
`return (number == 0) ? 1 : number * produce_item(number - 1);`

`produce_item_fuel` mirrors the C recursion on `Int` (the C parameter is an
`int`), made total with an explicit recursion-depth fuel so that
non-termination of the C recursion (e.g. on negative inputs) shows up as
`none`.  `produce_item` is the same recursion specialised to nonnegative
inputs, with C `long double` arithmetic idealised as exact integer
arithmetic.
-/

/-- Fuel-indexed embedding of the C recursion of `produce_item` on `Int`. -/
def produce_item_fuel : Nat → Int → Option Int
  | 0, _ => none
  | fuel + 1, number =>
      if number = 0 then some 1
      else
        match produce_item_fuel fuel (number - 1) with
        | none => none
        | some r => some (number * r)

/-- Direct model of `produce_item` on nonnegative inputs (exact arithmetic). -/
def produce_item : Nat → Int
  | 0 => 1
  | n + 1 => (n + 1 : Int) * produce_item n

/-!
## The two thread bodies as a small-step transition system

Producer (lines 46-72): local `buffer_index` starts at 0 and the loop body is
  sem_wait(&empty_semaphore);
  pthread_mutex_lock(&lock);
  buffer[buffer_index] = produce_item(buffer_index); buffer_index += 1;
  pthread_mutex_unlock(&lock);
  sem_post(&full_semaphore);
repeated while `buffer_index < MAX_BUFFER_SIZE` (do-while: at least once).

Consumer (lines 79-101) is symmetric: sem_wait(&full_semaphore), lock,
print and advance its own `buffer_index` (it never reads the buffer),
unlock, sem_post(&empty_semaphore), do-while on the same bound.

Each atomic action of a thread is one transition; the program counter of a
thread records where it is inside the loop body.
-/

/-- Thread identity. -/
inductive Who
  | prod
  | cons
  deriving DecidableEq, Repr

/-- Producer program counter: position inside the do-while body. -/
inductive PPc
  | pWait    -- about to sem_wait(&empty_semaphore)
  | pLock    -- about to pthread_mutex_lock(&lock)
  | pWrite   -- about to write buffer[buffer_index] and increment it
  | pUnlock  -- about to pthread_mutex_unlock(&lock)
  | pPost    -- about to sem_post(&full_semaphore) and test the loop guard
  | pDone    -- returned
  deriving DecidableEq, Repr

/-- Consumer program counter: position inside the do-while body. -/
inductive CPc
  | cWait    -- about to sem_wait(&full_semaphore)
  | cLock    -- about to pthread_mutex_lock(&lock)
  | cCons    -- about to print and increment its buffer_index
  | cUnlock  -- about to pthread_mutex_unlock(&lock)
  | cPost    -- about to sem_post(&empty_semaphore) and test the loop guard
  | cDone    -- returned
  deriving DecidableEq, Repr

/-- Pointwise buffer update (the write `buffer[i] = v`). -/
def updBuf (b : Nat → Int) (i : Nat) (v : Int) : Nat → Int :=
  fun j => if j = i then v else b j

/-- The shared state of the two-thread system, plus observation logs.
`write_log` records each producer write as (index, value) in order;
`cons_log` records each `Consumed i` line's index in order; `oob` is set
if a write ever falls outside the allocated `cap` slots. -/
structure SysState where
  empty_semaphore : Nat
  full_semaphore : Nat
  lock : Option Who
  buffer : Nat → Int
  producer_index : Nat
  consumer_index : Nat
  ppc : PPc
  cpc : CPc
  write_log : List (Nat × Int)
  cons_log : List Nat
  oob : Bool

/-- Initial state: `sem_init(&empty_semaphore, 0, cap)`,
`sem_init(&full_semaphore, 0, 0)`, unlocked mutex, both threads at the top
of their do-while loops with local index 0.  The freshly malloc'd buffer is
modelled as all-zero (no claim depends on unwritten contents). -/
def initState (cap : Nat) : SysState :=
  { empty_semaphore := cap
    full_semaphore := 0
    lock := none
    buffer := fun _ => 0
    producer_index := 0
    consumer_index := 0
    ppc := PPc.pWait
    cpc := CPc.cWait
    write_log := []
    cons_log := []
    oob := false }

/-- One atomic step of the producer thread, if enabled (`none` = blocked at
a semaphore or the mutex, or already returned).  `f` is the item generator
(`produce_item` in the source); the item for iteration `i` is `f i`, computed
from the same `buffer_index` at which it is stored. -/
def producer_step (cap N : Nat) (f : Nat → Int) (s : SysState) : Option SysState :=
  match s.ppc with
  | PPc.pWait =>
      if s.empty_semaphore = 0 then none
      else some { s with empty_semaphore := s.empty_semaphore - 1, ppc := PPc.pLock }
  | PPc.pLock =>
      match s.lock with
      | none => some { s with lock := some Who.prod, ppc := PPc.pWrite }
      | some _ => none
  | PPc.pWrite =>
      some { s with
        buffer := updBuf s.buffer s.producer_index (f s.producer_index)
        write_log := s.write_log ++ [(s.producer_index, f s.producer_index)]
        oob := if cap ≤ s.producer_index then true else s.oob
        producer_index := s.producer_index + 1
        ppc := PPc.pUnlock }
  | PPc.pUnlock =>
      some { s with lock := none, ppc := PPc.pPost }
  | PPc.pPost =>
      some { s with
        full_semaphore := s.full_semaphore + 1
        ppc := if s.producer_index < N then PPc.pWait else PPc.pDone }
  | PPc.pDone => none

/-- One atomic step of the consumer thread, if enabled.  Note the consumer
touches neither the buffer nor the item generator: its critical section only
prints its own counter and increments it. -/
def consumer_step (N : Nat) (s : SysState) : Option SysState :=
  match s.cpc with
  | CPc.cWait =>
      if s.full_semaphore = 0 then none
      else some { s with full_semaphore := s.full_semaphore - 1, cpc := CPc.cLock }
  | CPc.cLock =>
      match s.lock with
      | none => some { s with lock := some Who.cons, cpc := CPc.cCons }
      | some _ => none
  | CPc.cCons =>
      some { s with
        cons_log := s.cons_log ++ [s.consumer_index]
        consumer_index := s.consumer_index + 1
        cpc := CPc.cUnlock }
  | CPc.cUnlock =>
      some { s with lock := none, cpc := CPc.cPost }
  | CPc.cPost =>
      some { s with
        empty_semaphore := s.empty_semaphore + 1
        cpc := if s.consumer_index < N then CPc.cWait else CPc.cDone }
  | CPc.cDone => none

/-- Reachable states of the interleaved two-thread system. -/
inductive Reach (cap N : Nat) (f : Nat → Int) : SysState → Prop
  | init : Reach cap N f (initState cap)
  | stepP {s s' : SysState} : Reach cap N f s →
      producer_step cap N f s = some s' → Reach cap N f s'
  | stepC {s s' : SysState} : Reach cap N f s →
      consumer_step N s = some s' → Reach cap N f s'

/-- Scheduled step: run the chosen thread's next atomic action if it is
enabled, otherwise leave the state unchanged (the thread stays blocked). -/
def schedStep (cap N : Nat) (f : Nat → Int) (w : Who) (s : SysState) : SysState :=
  match w with
  | Who.prod => (producer_step cap N f s).getD s
  | Who.cons => (consumer_step N s).getD s

/-- Run a whole schedule (a list of thread choices) from a state. -/
def runSched (cap N : Nat) (f : Nat → Int) (sched : List Who) (s : SysState) : SysState :=
  sched.foldl (fun t w => schedStep cap N f w t) s

/-!
## The master invariant

Semaphore accounting: `producer_index` counts completed writes.  Between its
`sem_wait(&empty_semaphore)` and its write, the producer holds one acquired
empty-unit not yet reflected in `producer_index` (`pHeldEmpty`); between its
write and its `sem_post(&full_semaphore)`, one completed write is not yet
reflected in `full_semaphore` (`pPendingFull`).  Symmetrically for the
consumer.
-/

/-- Empty-semaphore units the producer has acquired but whose write has not
happened yet. -/
def pHeldEmpty (pc : PPc) : Nat :=
  match pc with
  | PPc.pLock => 1
  | PPc.pWrite => 1
  | _ => 0

/-- Completed writes whose `sem_post(&full_semaphore)` has not happened yet. -/
def pPendingFull (pc : PPc) : Nat :=
  match pc with
  | PPc.pUnlock => 1
  | PPc.pPost => 1
  | _ => 0

/-- Full-semaphore units the consumer has acquired but whose logical take has
not happened yet. -/
def cHeldFull (pc : CPc) : Nat :=
  match pc with
  | CPc.cLock => 1
  | CPc.cCons => 1
  | _ => 0

/-- Completed takes whose `sem_post(&empty_semaphore)` has not happened yet. -/
def cPendingEmpty (pc : CPc) : Nat :=
  match pc with
  | CPc.cUnlock => 1
  | CPc.cPost => 1
  | _ => 0

/-- Bounds on the producer's local index at each program point (do-while
semantics: the body runs at least once even when `N = 0`). -/
def pIdxInv (N : Nat) (pc : PPc) (i : Nat) : Prop :=
  match pc with
  | PPc.pWait => i = 0 ∨ i < N
  | PPc.pLock => i = 0 ∨ i < N
  | PPc.pWrite => i = 0 ∨ i < N
  | PPc.pUnlock => 1 ≤ i ∧ (i ≤ N ∨ i = 1)
  | PPc.pPost => 1 ≤ i ∧ (i ≤ N ∨ i = 1)
  | PPc.pDone => (i = N ∨ i = 1) ∧ N ≤ i

/-- Bounds on the consumer's local index at each program point. -/
def cIdxInv (N : Nat) (pc : CPc) (i : Nat) : Prop :=
  match pc with
  | CPc.cWait => i = 0 ∨ i < N
  | CPc.cLock => i = 0 ∨ i < N
  | CPc.cCons => i = 0 ∨ i < N
  | CPc.cUnlock => 1 ≤ i ∧ (i ≤ N ∨ i = 1)
  | CPc.cPost => 1 ≤ i ∧ (i ≤ N ∨ i = 1)
  | CPc.cDone => (i = N ∨ i = 1) ∧ N ≤ i

/-- The inductive invariant of the two-thread system. -/
def Inv (cap N : Nat) (f : Nat → Int) (s : SysState) : Prop :=
  s.empty_semaphore + s.producer_index + pHeldEmpty s.ppc + cPendingEmpty s.cpc
      = cap + s.consumer_index
  ∧ s.full_semaphore + s.consumer_index + cHeldFull s.cpc + pPendingFull s.ppc
      = s.producer_index
  ∧ (s.lock = some Who.prod ↔ (s.ppc = PPc.pWrite ∨ s.ppc = PPc.pUnlock))
  ∧ (s.lock = some Who.cons ↔ (s.cpc = CPc.cCons ∨ s.cpc = CPc.cUnlock))
  ∧ pIdxInv N s.ppc s.producer_index
  ∧ cIdxInv N s.cpc s.consumer_index
  ∧ s.write_log = (List.range s.producer_index).map (fun i => (i, f i))
  ∧ s.cons_log = List.range s.consumer_index
  ∧ (∀ i, i < s.producer_index → s.buffer i = f i)
  ∧ (1 ≤ cap → N ≤ cap → s.oob = false)

/-- A quiescent point: no thread is mid-operation (each thread is either at
the top of its do-while loop, before its `sem_wait`, or has returned). -/
def Quiescent (s : SysState) : Prop :=
  (s.ppc = PPc.pWait ∨ s.ppc = PPc.pDone) ∧ (s.cpc = CPc.cWait ∨ s.cpc = CPc.cDone)

instance (s : SysState) : Decidable (Quiescent s) := by
  unfold Quiescent
  exact inferInstance

/-- The producer is inside the mutex-guarded critical section (between
`pthread_mutex_lock` returning and `pthread_mutex_unlock` being issued). -/
def producer_in_critical (s : SysState) : Prop :=
  s.ppc = PPc.pWrite ∨ s.ppc = PPc.pUnlock

/-- The consumer is inside the mutex-guarded critical section. -/
def consumer_in_critical (s : SysState) : Prop :=
  s.cpc = CPc.cCons ∨ s.cpc = CPc.cUnlock

/-- Remaining atomic producer steps (5 per loop iteration): the termination
measure contribution of the producer thread. -/
def pMeasure (N : Nat) (pc : PPc) (i : Nat) : Nat :=
  match pc with
  | PPc.pWait => 5 * (N - i)
  | PPc.pLock => 5 * (N - i) - 1
  | PPc.pWrite => 5 * (N - i) - 2
  | PPc.pUnlock => 5 * (N - i) + 2
  | PPc.pPost => 5 * (N - i) + 1
  | PPc.pDone => 0

/-- Remaining atomic consumer steps: the consumer's measure contribution. -/
def cMeasure (N : Nat) (pc : CPc) (i : Nat) : Nat :=
  match pc with
  | CPc.cWait => 5 * (N - i)
  | CPc.cLock => 5 * (N - i) - 1
  | CPc.cCons => 5 * (N - i) - 2
  | CPc.cUnlock => 5 * (N - i) + 2
  | CPc.cPost => 5 * (N - i) + 1
  | CPc.cDone => 0

/-- Termination measure of the whole system: strictly decreases with every
atomic step of either thread. -/
def sysMeasure (N : Nat) (s : SysState) : Nat :=
  pMeasure N s.ppc s.producer_index + cMeasure N s.cpc s.consumer_index

/-- Everything the consumer thread can observe or influence: its program
counter, its loop counter, and the sequence of `Consumed i` lines it printed. -/
def consumer_view (s : SysState) : CPc × Nat × List Nat :=
  (s.cpc, s.consumer_index, s.cons_log)

/-- Two states that agree on all synchronisation and control state (and on
the consumer's observables), but may differ in the buffer contents and the
produced values.  This is the noninterference relation for C9. -/
def ControlAgree (s t : SysState) : Prop :=
  s.empty_semaphore = t.empty_semaphore
  ∧ s.full_semaphore = t.full_semaphore
  ∧ s.lock = t.lock
  ∧ s.producer_index = t.producer_index
  ∧ s.consumer_index = t.consumer_index
  ∧ s.ppc = t.ppc
  ∧ s.cpc = t.cpc
  ∧ s.cons_log = t.cons_log
  ∧ s.oob = t.oob

/-!
## The `main` function: startup, join and teardown (lines 107-221)

`main` is a linear sequence of fallible operations; after each one the
return code is tested and, on failure, a message is printed (always with
`printf`, i.e. on standard output) and the process does `exit(EXIT_FAILURE)`
immediately.  On full success `main` returns 0.

Which numeric code the failure message carries mirrors the source exactly:
- buffer allocation (malloc): no code at all;
- `sem_init(&full_semaphore, ...)`, `sem_destroy(&full_semaphore)`,
  `sem_destroy(&empty_semaphore)`: `errno`;
- everything else, including `sem_init(&empty_semaphore, ...)`: the call's
  return value `error_code`.
-/

/-- The fallible operations of `main`, in program order. -/
inductive MainOp
  | allocBuffer
  | mutexInit
  | fullSemInit
  | emptySemInit
  | prodAttrInit
  | consAttrInit
  | consCreate
  | prodCreate
  | prodJoin
  | consJoin
  | prodAttrDestroy
  | consAttrDestroy
  | mutexDestroy
  | fullSemDestroy
  | emptySemDestroy
  deriving DecidableEq, Repr, Fintype

/-- Outcome of one operation in a run: success, or failure with the call's
return value and the value of `errno` afterwards. -/
inductive Outcome
  | ok
  | fail (ret : Int) (errn : Int)
  deriving DecidableEq, Repr

/-- A failure scenario for a whole run of `main`. -/
def Scenario : Type := MainOp → Outcome

/-- Output channel of a message.  The C program only ever uses `printf`,
i.e. `stdout`. -/
inductive Chan
  | stdout
  | stderr
  deriving DecidableEq, Repr

/-- The distinct fixed message texts `main` can print, one constructor per
distinct format string in the source.  Note `semDestroyFail`: lines 209 and
216 print the byte-identical text `Could not destroy mutex semaphore,
error code = %d` for BOTH `sem_destroy(&full_semaphore)` and
`sem_destroy(&empty_semaphore)` (misnaming either as a mutex semaphore), so
the two share a single constructor — the printed text does not distinguish
them. -/
inductive MsgText
  | allocFail            -- Could not allocate memory for buffer
  | mutexInitFail        -- Could not initialize mutex lock, ...
  | fullSemInitFail      -- Could not initialize full semaphore, ...
  | emptySemInitFail     -- Could not initialize empty semaphore, ...
  | prodAttrInitFail     -- Could not initialize producer thread attributes, ...
  | consAttrInitFail     -- Could not initialize consumer thread attributes, ...
  | consCreateFail       -- Could not create consumer thread, ...
  | prodCreateFail       -- Could not create producer thread, ...
  | prodJoinFail         -- Could not join with producer thread, ...
  | consJoinFail         -- Could not join with consumer thread, ...
  | prodAttrDestroyFail  -- Could not destroy producer thread attributes, ...
  | consAttrDestroyFail  -- Could not destroy consumer thread attributes, ...
  | mutexDestroyFail     -- Could not destroy mutex lock, ...
  | semDestroyFail       -- Could not destroy mutex semaphore, ... (both sem_destroys)
  deriving DecidableEq, Repr

/-- The text `main` prints when the given operation fails, exactly as in the
source: every operation has its own format string except the two semaphore
destroys, which print the same text. -/
def msgTextOf (op : MainOp) : MsgText :=
  match op with
  | MainOp.allocBuffer => MsgText.allocFail
  | MainOp.mutexInit => MsgText.mutexInitFail
  | MainOp.fullSemInit => MsgText.fullSemInitFail
  | MainOp.emptySemInit => MsgText.emptySemInitFail
  | MainOp.prodAttrInit => MsgText.prodAttrInitFail
  | MainOp.consAttrInit => MsgText.consAttrInitFail
  | MainOp.consCreate => MsgText.consCreateFail
  | MainOp.prodCreate => MsgText.prodCreateFail
  | MainOp.prodJoin => MsgText.prodJoinFail
  | MainOp.consJoin => MsgText.consJoinFail
  | MainOp.prodAttrDestroy => MsgText.prodAttrDestroyFail
  | MainOp.consAttrDestroy => MsgText.consAttrDestroyFail
  | MainOp.mutexDestroy => MsgText.mutexDestroyFail
  | MainOp.fullSemDestroy => MsgText.semDestroyFail
  | MainOp.emptySemDestroy => MsgText.semDestroyFail

/-- An emitted diagnostic: channel, the fixed text printed, and the numeric
code interpolated into it (if any).  This is everything an observer of the
process output sees. -/
structure Msg where
  chan : Chan
  text : MsgText
  code : Option Int
  deriving DecidableEq, Repr

/-- Result of a run of `main`: process exit code, emitted diagnostics in
order, and the operations that were actually attempted, in order. -/
structure MainRes where
  exitCode : Nat
  output : List Msg
  executed : List MainOp
  deriving DecidableEq, Repr

/-- Which numeric code the failure message for `op` carries, as printed by
the source (see lines 113-218). -/
def msgCode (op : MainOp) (ret errn : Int) : Option Int :=
  match op with
  | MainOp.allocBuffer => none
  | MainOp.fullSemInit => some errn
  | MainOp.fullSemDestroy => some errn
  | MainOp.emptySemDestroy => some errn
  | _ => some ret

/-- The operations of `main` in source order. -/
def mainOrder : List MainOp :=
  [MainOp.allocBuffer, MainOp.mutexInit, MainOp.fullSemInit, MainOp.emptySemInit,
   MainOp.prodAttrInit, MainOp.consAttrInit, MainOp.consCreate, MainOp.prodCreate,
   MainOp.prodJoin, MainOp.consJoin, MainOp.prodAttrDestroy, MainOp.consAttrDestroy,
   MainOp.mutexDestroy, MainOp.fullSemDestroy, MainOp.emptySemDestroy]

/-- The teardown (cleanup) operations. -/
def isTeardown (op : MainOp) : Bool :=
  match op with
  | MainOp.prodAttrDestroy => true
  | MainOp.consAttrDestroy => true
  | MainOp.mutexDestroy => true
  | MainOp.fullSemDestroy => true
  | MainOp.emptySemDestroy => true
  | _ => false

/-- Run the remaining operations of `main`: each failure prints one message
(on stdout, per the source's `printf`) and exits with `EXIT_FAILURE` (= 1)
at once, skipping everything that follows. -/
def runFrom (sc : Scenario) : List MainOp → MainRes
  | [] => { exitCode := 0, output := [], executed := [] }
  | op :: rest =>
      match sc op with
      | Outcome.ok =>
          let r := runFrom sc rest
          { exitCode := r.exitCode, output := r.output, executed := op :: r.executed }
      | Outcome.fail ret errn =>
          { exitCode := 1
            output := [{ chan := Chan.stdout, text := msgTextOf op, code := msgCode op ret errn }]
            executed := [op] }

/-- The whole of `main` over a failure scenario. -/
def runMain (sc : Scenario) : MainRes :=
  runFrom sc mainOrder

/-- The all-success scenario. -/
def scOk : Scenario := fun _ => Outcome.ok

/-- Scenario in which exactly the given operation fails, with the given
return value and errno. -/
def scFailAt (o : MainOp) (ret errn : Int) : Scenario :=
  fun op => if op = o then Outcome.fail ret errn else Outcome.ok

/-- One full round of the two-thread system under the alternating schedule:
five producer steps (one complete `put`) then five consumer steps (one
complete `take`). -/
def roundRobin : List Who :=
  [Who.prod, Who.prod, Who.prod, Who.prod, Who.prod,
   Who.cons, Who.cons, Who.cons, Who.cons, Who.cons]

/-- Repeat `roundRobin` `n` times: a schedule that completes `n` puts and `n`
takes when `n ≤ N`. -/
def roundRobinN (n : Nat) : List Who :=
  (List.range n).foldl (fun acc _ => acc ++ roundRobin) []

theorem reach_schedStep {cap N : Nat} {f : Nat → Int} {s : SysState}
    (h : Reach cap N f s) (w : Who) : Reach cap N f (schedStep cap N f w s) := by
  cases w with
  | prod =>
      unfold schedStep
      cases hp : producer_step cap N f s with
      | none => simpa [hp] using h
      | some s' => simpa [hp] using Reach.stepP h hp
  | cons =>
      unfold schedStep
      cases hc : consumer_step N s with
      | none => simpa [hc] using h
      | some s' => simpa [hc] using Reach.stepC h hc

theorem reach_runSched {cap N : Nat} {f : Nat → Int} (sched : List Who)
    {s : SysState} (h : Reach cap N f s) : Reach cap N f (runSched cap N f sched s) := by
  induction sched generalizing s with
  | nil => simpa [runSched] using h
  | cons w ws ih =>
      have := ih (reach_schedStep h w)
      simpa [runSched, List.foldl_cons] using this

theorem inv_init (cap N : Nat) (f : Nat → Int) : Inv cap N f (initState cap) := by
  refine ⟨?_, ?_, ?_, ?_, ?_, ?_, ?_, ?_, ?_, ?_⟩ <;>
    simp [initState, pHeldEmpty, pPendingFull, cHeldFull, cPendingEmpty, pIdxInv, cIdxInv]

theorem inv_stepP {cap N : Nat} {f : Nat → Int} {s s' : SysState}
    (h : Inv cap N f s) (hs : producer_step cap N f s = some s') :
    Inv cap N f s' := by
  obtain ⟨hE, hF, hLp, hLc, hPi, hCi, hW, hC, hB, hO⟩ := h
  unfold producer_step at hs
  cases hppc : s.ppc <;> rw [hppc] at hs hE hF hLp hPi <;>
    simp only [pHeldEmpty, pPendingFull, pIdxInv] at hE hF hPi
  case pWait =>
    by_cases he : s.empty_semaphore = 0
    · simp [he] at hs
    · simp only [he, if_false, Option.some.injEq] at hs
      subst hs
      refine ⟨?_, ?_, ?_, ?_, ?_, hCi, hW, hC, hB, hO⟩
      · simp only [pHeldEmpty]; omega
      · simp only [pPendingFull]; omega
      · simpa using hLp
      · exact hLc
      · simp only [pIdxInv]; omega
  case pLock =>
    cases hl : s.lock with
    | some w => rw [hl] at hs; simp at hs
    | none =>
      rw [hl] at hs
      simp only [Option.some.injEq] at hs
      subst hs
      refine ⟨?_, ?_, ?_, ?_, ?_, hCi, hW, hC, hB, hO⟩
      · simp only [pHeldEmpty]; omega
      · simp only [pPendingFull]; omega
      · simp
      · rw [hl] at hLc; simpa using hLc
      · simp only [pIdxInv]; omega
  case pWrite =>
    simp only [Option.some.injEq] at hs
    subst hs
    have hl : s.lock = some Who.prod := hLp.mpr (Or.inl rfl)
    refine ⟨?_, ?_, ?_, hLc, ?_, hCi, ?_, hC, ?_, ?_⟩
    · simp only [pHeldEmpty]; omega
    · simp only [pPendingFull]; omega
    · simp [hl]
    · simp only [pIdxInv]; omega
    · simp [hW, List.range_succ]
    · intro i hi
      have hi2 : i < s.producer_index + 1 := hi
      by_cases hip : i = s.producer_index
      · simp [updBuf, hip]
      · have : i < s.producer_index := by omega
        simp only [updBuf, if_neg hip]
        exact hB i this
    · intro h1 hNc
      have hlt : ¬ cap ≤ s.producer_index := by omega
      simp only [if_neg hlt]
      exact hO h1 hNc
  case pUnlock =>
    simp only [Option.some.injEq] at hs
    subst hs
    have hl : s.lock = some Who.prod := hLp.mpr (Or.inr rfl)
    have hrc : ¬ (s.cpc = CPc.cCons ∨ s.cpc = CPc.cUnlock) := by
      intro hc
      have := hLc.mpr hc
      rw [hl] at this
      simp at this
    refine ⟨?_, ?_, ?_, ?_, ?_, hCi, hW, hC, hB, hO⟩
    · simp only [pHeldEmpty]; omega
    · simp only [pPendingFull]; omega
    · simp
    · simp [hrc]
    · simp only [pIdxInv]; omega
  case pPost =>
    simp only [Option.some.injEq] at hs
    subst hs
    have hnp : s.lock ≠ some Who.prod := by
      intro hc; rcases hLp.mp hc with h | h <;> simp at h
    refine ⟨?_, ?_, ?_, hLc, ?_, hCi, hW, hC, hB, hO⟩
    · split <;> simp only [pHeldEmpty] <;> omega
    · split <;> simp only [pPendingFull] <;> omega
    · split <;> simp [hnp]
    · split <;> simp only [pIdxInv] <;> omega
  case pDone => simp at hs

theorem inv_stepC {cap N : Nat} {f : Nat → Int} {s s' : SysState}
    (h : Inv cap N f s) (hs : consumer_step N s = some s') :
    Inv cap N f s' := by
  obtain ⟨hE, hF, hLp, hLc, hPi, hCi, hW, hC, hB, hO⟩ := h
  unfold consumer_step at hs
  cases hcpc : s.cpc <;> rw [hcpc] at hs hE hF hLc hCi <;>
    simp only [cHeldFull, cPendingEmpty, cIdxInv] at hE hF hCi
  case cWait =>
    by_cases hfu : s.full_semaphore = 0
    · simp [hfu] at hs
    · simp only [hfu, if_false, Option.some.injEq] at hs
      subst hs
      refine ⟨?_, ?_, hLp, ?_, hPi, ?_, hW, hC, hB, hO⟩
      · simp only [cPendingEmpty]; omega
      · simp only [cHeldFull]; omega
      · simpa using hLc
      · simp only [cIdxInv]; omega
  case cLock =>
    cases hl : s.lock with
    | some w => rw [hl] at hs; simp at hs
    | none =>
      rw [hl] at hs
      simp only [Option.some.injEq] at hs
      subst hs
      refine ⟨?_, ?_, ?_, ?_, hPi, ?_, hW, hC, hB, hO⟩
      · simp only [cPendingEmpty]; omega
      · simp only [cHeldFull]; omega
      · rw [hl] at hLp; simpa using hLp
      · simp
      · simp only [cIdxInv]; omega
  case cCons =>
    simp only [Option.some.injEq] at hs
    subst hs
    refine ⟨?_, ?_, hLp, ?_, hPi, ?_, hW, ?_, hB, hO⟩
    · simp only [cPendingEmpty]; omega
    · simp only [cHeldFull]; omega
    · have hl : s.lock = some Who.cons := hLc.mpr (Or.inl rfl)
      simp [hl]
    · simp only [cIdxInv]; omega
    · simp [hC, List.range_succ]
  case cUnlock =>
    simp only [Option.some.injEq] at hs
    subst hs
    have hl : s.lock = some Who.cons := hLc.mpr (Or.inr rfl)
    have hrp : ¬ (s.ppc = PPc.pWrite ∨ s.ppc = PPc.pUnlock) := by
      intro hc
      have := hLp.mpr hc
      rw [hl] at this
      simp at this
    refine ⟨?_, ?_, ?_, ?_, hPi, ?_, hW, hC, hB, hO⟩
    · simp only [cPendingEmpty]; omega
    · simp only [cHeldFull]; omega
    · simp [hrp]
    · simp
    · simp only [cIdxInv]; omega
  case cPost =>
    simp only [Option.some.injEq] at hs
    subst hs
    have hnc : s.lock ≠ some Who.cons := by
      intro hc; rcases hLc.mp hc with h | h <;> simp at h
    refine ⟨?_, ?_, hLp, ?_, hPi, ?_, hW, hC, hB, hO⟩
    · split <;> simp only [cPendingEmpty] <;> omega
    · split <;> simp only [cHeldFull] <;> omega
    · split <;> simp [hnc]
    · split <;> simp only [cIdxInv] <;> omega
  case cDone => simp at hs

/-- Every reachable state of the system satisfies the master invariant. -/
theorem reach_inv {cap N : Nat} {f : Nat → Int} {s : SysState}
    (h : Reach cap N f s) : Inv cap N f s := by
  induction h with
  | init => exact inv_init cap N f
  | stepP _ hstep ih => exact inv_stepP ih hstep
  | stepC _ hstep ih => exact inv_stepC ih hstep

/-- C1: Capacity invariant.  In every reachable quiescent state (no thread
mid-operation) the value of the empty-slot semaphore plus the value of the
filled-slot semaphore equals the buffer capacity; the empty semaphore starts
at the capacity and the full semaphore starts at 0.  That every put performs
exactly one acquire on `empty_semaphore` and one release on
`full_semaphore`, and every take exactly one acquire on `full_semaphore` and
one release on `empty_semaphore`, is embodied in `producer_step` /
`consumer_step`: the only semaphore updates in a producer cycle are the
single decrement at `pWait` and the single increment at `pPost`, and
symmetrically for the consumer. -/
theorem capacity_invariant (cap N : Nat) (f : Nat → Int) (s : SysState)
    (hs : Reach cap N f s) (hq : Quiescent s) :
    s.empty_semaphore + s.full_semaphore = cap
    ∧ (initState cap).empty_semaphore = cap
    ∧ (initState cap).full_semaphore = 0 := by
  obtain ⟨hE, hF, _, _, _, _, _, _, _, _⟩ := reach_inv hs
  obtain ⟨hp, hc⟩ := hq
  refine ⟨?_, rfl, rfl⟩
  have h1 : pHeldEmpty s.ppc = 0 := by
    rcases hp with h | h <;> simp [h, pHeldEmpty]
  have h2 : pPendingFull s.ppc = 0 := by
    rcases hp with h | h <;> simp [h, pPendingFull]
  have h3 : cHeldFull s.cpc = 0 := by
    rcases hc with h | h <;> simp [h, cHeldFull]
  have h4 : cPendingEmpty s.cpc = 0 := by
    rcases hc with h | h <;> simp [h, cPendingEmpty]
  omega

/-- Witness for C1 at a concrete reachable quiescent state: two complete
put/take rounds with capacity 2 and N = 2. -/
theorem capacity_invariant_witness :
    Quiescent (runSched 2 2 produce_item (roundRobinN 2) (initState 2))
    ∧ ((runSched 2 2 produce_item (roundRobinN 2) (initState 2)).empty_semaphore
        + (runSched 2 2 produce_item (roundRobinN 2) (initState 2)).full_semaphore = 2
      ∧ (initState 2).empty_semaphore = 2
      ∧ (initState 2).full_semaphore = 0) :=
  ⟨by decide,
   capacity_invariant 2 2 produce_item _
     (reach_runSched (roundRobinN 2) Reach.init) (by decide)⟩

/-- C2: FIFO-per-pair.  With the single producer and single consumer, the
read and write positions advance in step: in every reachable state the
consumer has taken at most as many slots as the producer has written, slot
`i` holds `f i` (the value the `i`-th put stored) once written, and in
particular every slot the consumer has already logically taken held exactly
the value the put of the same rank stored.  The C consumer discards the
value (see C9), so "the value returned by the `i`-th take" is formalised as
the content of slot `i`, the slot the `i`-th take logically removes. -/
theorem fifo_per_pair (cap N : Nat) (f : Nat → Int) (s : SysState)
    (hs : Reach cap N f s) :
    s.consumer_index ≤ s.producer_index
    ∧ (∀ i, i < s.producer_index → s.buffer i = f i)
    ∧ (∀ i, i < s.consumer_index → s.buffer i = f i) := by
  obtain ⟨_, hF, _, _, _, _, _, _, hB, _⟩ := reach_inv hs
  have hle : s.consumer_index ≤ s.producer_index := by omega
  exact ⟨hle, hB, fun i hi => hB i (lt_of_lt_of_le hi hle)⟩

/-- Witness for C2 after two complete rounds with the factorial workload:
both taken slots hold the produced values 0! = 1 and 1! = 1. -/
theorem fifo_per_pair_witness :
    (runSched 2 2 produce_item (roundRobinN 2) (initState 2)).consumer_index
        ≤ (runSched 2 2 produce_item (roundRobinN 2) (initState 2)).producer_index
    ∧ (∀ i, i < (runSched 2 2 produce_item (roundRobinN 2) (initState 2)).producer_index →
        (runSched 2 2 produce_item (roundRobinN 2) (initState 2)).buffer i = produce_item i)
    ∧ (∀ i, i < (runSched 2 2 produce_item (roundRobinN 2) (initState 2)).consumer_index →
        (runSched 2 2 produce_item (roundRobinN 2) (initState 2)).buffer i = produce_item i) :=
  fifo_per_pair 2 2 produce_item _ (reach_runSched (roundRobinN 2) Reach.init)

/-- C4: Mutual-exclusion discipline.  In every reachable state at most one
thread is inside the guarded critical section (so no two writes, and no
write and read, of the shared buffer state happen concurrently — they are
totally ordered by the mutex); the mutex is held by a thread exactly when it
is inside its critical section; and a thread blocked on a counting
semaphore (`pWait` / `cWait`, the only blocking points of the counting
resources) never holds the mutex: in both `put` and `take` the mutex is
acquired only after the semaphore acquire and released before the semaphore
release. -/
theorem mutual_exclusion_discipline (cap N : Nat) (f : Nat → Int) (s : SysState)
    (hs : Reach cap N f s) :
    ¬ (producer_in_critical s ∧ consumer_in_critical s)
    ∧ (s.lock = some Who.prod ↔ producer_in_critical s)
    ∧ (s.lock = some Who.cons ↔ consumer_in_critical s)
    ∧ (s.ppc = PPc.pWait → s.lock ≠ some Who.prod)
    ∧ (s.cpc = CPc.cWait → s.lock ≠ some Who.cons) := by
  obtain ⟨_, _, hLp, hLc, _, _, _, _, _, _⟩ := reach_inv hs
  refine ⟨?_, hLp, hLc, ?_, ?_⟩
  · rintro ⟨hpc, hcc⟩
    have h1 := hLp.mpr hpc
    have h2 := hLc.mpr hcc
    rw [h1] at h2
    simp at h2
  · intro hw hl
    rcases hLp.mp hl with h | h <;> rw [hw] at h <;> simp at h
  · intro hw hl
    rcases hLc.mp hl with h | h <;> rw [hw] at h <;> simp at h

/-- Witness for C4 at a mid-operation reachable state: the producer has done
`sem_wait` and `pthread_mutex_lock` and stands at its buffer write. -/
theorem mutual_exclusion_discipline_witness :
    ¬ (producer_in_critical (runSched 2 2 produce_item [Who.prod, Who.prod] (initState 2))
        ∧ consumer_in_critical (runSched 2 2 produce_item [Who.prod, Who.prod] (initState 2)))
    ∧ ((runSched 2 2 produce_item [Who.prod, Who.prod] (initState 2)).lock = some Who.prod
        ↔ producer_in_critical (runSched 2 2 produce_item [Who.prod, Who.prod] (initState 2)))
    ∧ ((runSched 2 2 produce_item [Who.prod, Who.prod] (initState 2)).lock = some Who.cons
        ↔ consumer_in_critical (runSched 2 2 produce_item [Who.prod, Who.prod] (initState 2)))
    ∧ ((runSched 2 2 produce_item [Who.prod, Who.prod] (initState 2)).ppc = PPc.pWait →
        (runSched 2 2 produce_item [Who.prod, Who.prod] (initState 2)).lock ≠ some Who.prod)
    ∧ ((runSched 2 2 produce_item [Who.prod, Who.prod] (initState 2)).cpc = CPc.cWait →
        (runSched 2 2 produce_item [Who.prod, Who.prod] (initState 2)).lock ≠ some Who.cons) :=
  mutual_exclusion_discipline 2 2 produce_item _
    (reach_runSched [Who.prod, Who.prod] Reach.init)

/-- C5: Write-position semantics of put.  In every reachable state the
producer's write log is exactly `[(0, f 0), (1, f 1), ..]` up to
`producer_index`: the `k`-th put wrote its item at position `k` and then
advanced the position by exactly one, so after `k` puts the write index
equals `k` — monotonically increasing, never reduced modulo the capacity,
bounded by the total item count (`N`, or 1 when the do-while body has run
its mandatory first iteration with `N = 0`). -/
theorem write_position_semantics (cap N : Nat) (f : Nat → Int) (s : SysState)
    (hs : Reach cap N f s) :
    s.write_log = (List.range s.producer_index).map (fun i => (i, f i))
    ∧ s.write_log.length = s.producer_index
    ∧ s.producer_index ≤ max N 1 := by
  obtain ⟨_, _, _, _, hPi, _, hW, _, _, _⟩ := reach_inv hs
  refine ⟨hW, by simp [hW], ?_⟩
  cases hppc : s.ppc <;> rw [hppc] at hPi <;> simp only [pIdxInv] at hPi <;> omega

/-- Witness for C5 after two complete puts: the log is [(0, 0!), (1, 1!)]
and the write index is 2. -/
theorem write_position_semantics_witness :
    (runSched 2 2 produce_item (roundRobinN 2) (initState 2)).write_log
        = (List.range (runSched 2 2 produce_item (roundRobinN 2) (initState 2)).producer_index).map
            (fun i => (i, produce_item i))
    ∧ (runSched 2 2 produce_item (roundRobinN 2) (initState 2)).write_log.length
        = (runSched 2 2 produce_item (roundRobinN 2) (initState 2)).producer_index
    ∧ (runSched 2 2 produce_item (roundRobinN 2) (initState 2)).producer_index ≤ max 2 1 :=
  write_position_semantics 2 2 produce_item _ (reach_runSched (roundRobinN 2) Reach.init)

/-- C10: Every buffer write is in bounds.  Whenever the loop bound `N` is at
most the allocated buffer length `cap` (in the source both are the single
constant MAX_BUFFER_SIZE = 100) and the capacity is positive, no reachable
state ever records an out-of-bounds write: the guarded-write branch that
would set `oob` is unreachable, because in every reachable state the
producer writes at its local index, which stays below `N ≤ cap`. -/
theorem producer_writes_in_bounds (cap N : Nat) (f : Nat → Int) (s : SysState)
    (h1 : 1 ≤ cap) (h2 : N ≤ cap) (hs : Reach cap N f s) :
    s.oob = false := by
  obtain ⟨_, _, _, _, _, _, _, _, _, hO⟩ := reach_inv hs
  exact hO h1 h2

/-- Witness for C10 at the source's own parameters MAX_BUFFER_SIZE = 100
(one complete round) — the out-of-bounds flag stays clear. -/
theorem producer_writes_in_bounds_witness :
    1 ≤ MAX_BUFFER_SIZE ∧ MAX_BUFFER_SIZE ≤ MAX_BUFFER_SIZE
    ∧ (runSched MAX_BUFFER_SIZE MAX_BUFFER_SIZE produce_item roundRobin
        (initState MAX_BUFFER_SIZE)).oob = false :=
  ⟨by decide, by decide,
   producer_writes_in_bounds MAX_BUFFER_SIZE MAX_BUFFER_SIZE produce_item _
     (by decide) (by decide) (reach_runSched roundRobin Reach.init)⟩

theorem producer_blocked {cap N : Nat} {f : Nat → Int} {s : SysState}
    (hp : producer_step cap N f s = none) :
    (s.ppc = PPc.pWait ∧ s.empty_semaphore = 0)
    ∨ (s.ppc = PPc.pLock ∧ ∃ w, s.lock = some w)
    ∨ s.ppc = PPc.pDone := by
  unfold producer_step at hp
  cases hppc : s.ppc <;> rw [hppc] at hp
  case pWait =>
    by_cases he : s.empty_semaphore = 0
    · exact Or.inl ⟨rfl, he⟩
    · simp [he] at hp
  case pLock =>
    cases hl : s.lock with
    | none => rw [hl] at hp; simp at hp
    | some w => exact Or.inr (Or.inl ⟨rfl, w, rfl⟩)
  case pWrite => simp at hp
  case pUnlock => simp at hp
  case pPost => simp at hp
  case pDone => exact Or.inr (Or.inr rfl)

theorem consumer_blocked {N : Nat} {s : SysState}
    (hc : consumer_step N s = none) :
    (s.cpc = CPc.cWait ∧ s.full_semaphore = 0)
    ∨ (s.cpc = CPc.cLock ∧ ∃ w, s.lock = some w)
    ∨ s.cpc = CPc.cDone := by
  unfold consumer_step at hc
  cases hcpc : s.cpc <;> rw [hcpc] at hc
  case cWait =>
    by_cases hf : s.full_semaphore = 0
    · exact Or.inl ⟨rfl, hf⟩
    · simp [hf] at hc
  case cLock =>
    cases hl : s.lock with
    | none => rw [hl] at hc; simp at hc
    | some w => exact Or.inr (Or.inl ⟨rfl, w, rfl⟩)
  case cCons => simp at hc
  case cUnlock => simp at hc
  case cPost => simp at hc
  case cDone => exact Or.inr (Or.inr rfl)

/-- With a positive capacity and a positive common iteration count, a
reachable state in which neither thread can move is the final state: both
threads returned, after exactly N puts and N takes. -/
theorem stuck_is_final {cap N : Nat} {f : Nat → Int} {s : SysState}
    (hcap : 1 ≤ cap) (hN : 1 ≤ N) (hs : Reach cap N f s)
    (hp : producer_step cap N f s = none) (hc : consumer_step N s = none) :
    s.ppc = PPc.pDone ∧ s.cpc = CPc.cDone
    ∧ s.producer_index = N ∧ s.consumer_index = N := by
  obtain ⟨hE, hF, hLp, hLc, hPi, hCi, _, _, _, _⟩ := reach_inv hs
  rcases producer_blocked hp with ⟨hpw, he⟩ | ⟨hpl, w, hlw⟩ | hpd
  · -- producer blocked at sem_wait(empty) with empty = 0
    rw [hpw] at hE hLp hPi
    simp only [pHeldEmpty, pIdxInv] at hE hPi
    rcases consumer_blocked hc with ⟨hcw, hfu⟩ | ⟨hcl, w, hlw⟩ | hcd
    · rw [hcw] at hF hCi
      simp only [cHeldFull, cPendingEmpty, cIdxInv] at hF hCi
      rw [hcw] at hE
      simp only [cPendingEmpty] at hE
      rw [hpw] at hF
      simp only [pPendingFull] at hF
      omega
    · cases w with
      | prod =>
          have := hLp.mp hlw
          simp at this
      | cons =>
          have := hLc.mp hlw
          rw [hcl] at this
          rcases this with h | h <;> simp at h
    · rw [hcd] at hE hCi
      simp only [cPendingEmpty, cIdxInv] at hE hCi
      omega
  · -- producer blocked at pthread_mutex_lock: impossible, the holder would
    -- itself be runnable
    cases w with
    | prod =>
        have := hLp.mp hlw
        rw [hpl] at this
        rcases this with h | h <;> simp at h
    | cons =>
        have := hLc.mp hlw
        rcases consumer_blocked hc with ⟨hcw, _⟩ | ⟨hcl, _⟩ | hcd
        · rw [hcw] at this; rcases this with h | h <;> simp at h
        · rw [hcl] at this; rcases this with h | h <;> simp at h
        · rw [hcd] at this; rcases this with h | h <;> simp at h
  · -- producer done
    rw [hpd] at hF hPi
    simp only [pPendingFull, pIdxInv] at hF hPi
    rcases consumer_blocked hc with ⟨hcw, hfu⟩ | ⟨hcl, w, hlw⟩ | hcd
    · rw [hcw] at hF hCi
      simp only [cHeldFull, cIdxInv] at hF hCi
      omega
    · cases w with
      | prod =>
          have := hLp.mp hlw
          rw [hpd] at this
          rcases this with h | h <;> simp at h
      | cons =>
          have := hLc.mp hlw
          rw [hcl] at this
          rcases this with h | h <;> simp at h
    · rw [hcd] at hF hCi
      simp only [cHeldFull, cIdxInv] at hF hCi
      exact ⟨hpd, hcd, by omega, by omega⟩

/-- Every enabled producer step strictly decreases the termination measure. -/
theorem measure_decreases_P {cap N : Nat} {f : Nat → Int} {s s' : SysState}
    (hN : 1 ≤ N) (hs : Reach cap N f s)
    (hstep : producer_step cap N f s = some s') :
    sysMeasure N s' < sysMeasure N s := by
  obtain ⟨_, _, _, _, hPi, _, _, _, _, _⟩ := reach_inv hs
  unfold producer_step at hstep
  cases hppc : s.ppc <;> rw [hppc] at hstep hPi <;>
    simp only [pIdxInv] at hPi <;> rw [sysMeasure, sysMeasure, hppc]
  case pWait =>
    by_cases he : s.empty_semaphore = 0
    · simp [he] at hstep
    · simp only [he, if_false, Option.some.injEq] at hstep
      subst hstep
      simp only [pMeasure]
      omega
  case pLock =>
    cases hl : s.lock with
    | some w => rw [hl] at hstep; simp at hstep
    | none =>
      rw [hl] at hstep
      simp only [Option.some.injEq] at hstep
      subst hstep
      simp only [pMeasure]
      omega
  case pWrite =>
    simp only [Option.some.injEq] at hstep
    subst hstep
    simp only [pMeasure]
    omega
  case pUnlock =>
    simp only [Option.some.injEq] at hstep
    subst hstep
    simp only [pMeasure]
    omega
  case pPost =>
    simp only [Option.some.injEq] at hstep
    subst hstep
    split <;> simp only [pMeasure] <;> omega
  case pDone => simp at hstep

/-- Every enabled consumer step strictly decreases the termination measure. -/
theorem measure_decreases_C {cap N : Nat} {f : Nat → Int} {s s' : SysState}
    (hN : 1 ≤ N) (hs : Reach cap N f s)
    (hstep : consumer_step N s = some s') :
    sysMeasure N s' < sysMeasure N s := by
  obtain ⟨_, _, _, _, _, hCi, _, _, _, _⟩ := reach_inv hs
  unfold consumer_step at hstep
  cases hcpc : s.cpc <;> rw [hcpc] at hstep hCi <;>
    simp only [cIdxInv] at hCi <;> rw [sysMeasure, sysMeasure, hcpc]
  case cWait =>
    by_cases hf : s.full_semaphore = 0
    · simp [hf] at hstep
    · simp only [hf, if_false, Option.some.injEq] at hstep
      subst hstep
      simp only [cMeasure]
      omega
  case cLock =>
    cases hl : s.lock with
    | some w => rw [hl] at hstep; simp at hstep
    | none =>
      rw [hl] at hstep
      simp only [Option.some.injEq] at hstep
      subst hstep
      simp only [cMeasure]
      omega
  case cCons =>
    simp only [Option.some.injEq] at hstep
    subst hstep
    simp only [cMeasure]
    omega
  case cUnlock =>
    simp only [Option.some.injEq] at hstep
    subst hstep
    simp only [cMeasure]
    omega
  case cPost =>
    simp only [Option.some.injEq] at hstep
    subst hstep
    split <;> simp only [cMeasure] <;> omega
  case cDone => simp at hstep

/-- C3: Termination with exact operation counts.  For any common iteration
count N ≥ 1 and capacity ≥ 1: (a) no reachable state deadlocks — if
neither thread has an enabled step, both threads have returned, the
producer having performed exactly N puts and the consumer exactly N takes
(so no operation is ever blocked forever: as long as either thread has work
left, some step is enabled); and (b) every atomic step of either thread
strictly decreases the natural-number measure `sysMeasure`, so every
execution of the interleaved system is finite and every maximal execution
ends in that joint-completion state. -/
theorem termination_with_exact_counts (cap N : Nat) (f : Nat → Int)
    (hcap : 1 ≤ cap) (hN : 1 ≤ N) :
    (∀ s, Reach cap N f s → producer_step cap N f s = none →
        consumer_step N s = none →
        s.ppc = PPc.pDone ∧ s.cpc = CPc.cDone
        ∧ s.producer_index = N ∧ s.consumer_index = N)
    ∧ (∀ s s', Reach cap N f s →
        (producer_step cap N f s = some s' ∨ consumer_step N s = some s') →
        sysMeasure N s' < sysMeasure N s) := by
  constructor
  · intro s hs hp hc
    exact stuck_is_final hcap hN hs hp hc
  · intro s s' hs hstep
    rcases hstep with h | h
    · exact measure_decreases_P hN hs h
    · exact measure_decreases_C hN hs h

/-- Witness for C3 at capacity 1 and N = 1 (strict alternation). -/
theorem termination_with_exact_counts_witness :
    (∀ s, Reach 1 1 produce_item s → producer_step 1 1 produce_item s = none →
        consumer_step 1 s = none →
        s.ppc = PPc.pDone ∧ s.cpc = CPc.cDone
        ∧ s.producer_index = 1 ∧ s.consumer_index = 1)
    ∧ (∀ s s', Reach 1 1 produce_item s →
        (producer_step 1 1 produce_item s = some s' ∨ consumer_step 1 s = some s') →
        sysMeasure 1 s' < sysMeasure 1 s) :=
  termination_with_exact_counts 1 1 produce_item (by decide) (by decide)

/-- C8: the workload generator computes the factorial function.  For every
n ≥ 0 (embedded as `n : Nat` cast to the C `int` argument), the C recursion
terminates — recursion depth n + 1 suffices, which is the well-foundedness
of the recursion on nonnegative inputs — and returns n!; equivalently the
direct nonnegative-input model `produce_item` equals `Nat.factorial`.
(C `long double` arithmetic is idealised as exact integer arithmetic.) -/
theorem produce_item_is_factorial (n : Nat) :
    produce_item_fuel (n + 1) (n : Int) = some ((Nat.factorial n : Nat) : Int)
    ∧ produce_item n = ((Nat.factorial n : Nat) : Int) := by
  induction n with
  | zero => constructor <;> rfl
  | succ m ih =>
      obtain ⟨ihf, ihd⟩ := ih
      constructor
      · rw [produce_item_fuel]
        have hne : ((m : Int) + 1) ≠ 0 := by positivity
        have hcast : ((m + 1 : Nat) : Int) = (m : Int) + 1 := by push_cast; ring
        rw [hcast, if_neg hne]
        have harg : (m : Int) + 1 - 1 = (m : Int) := by ring
        rw [harg, ihf]
        have : (Nat.factorial (m + 1) : Int) = ((m : Int) + 1) * (Nat.factorial m : Int) := by
          rw [Nat.factorial_succ]
          push_cast
          ring
        rw [this]
      · rw [produce_item, ihd]
        rw [Nat.factorial_succ]
        push_cast
        ring

/-- One scheduled step preserves `ControlAgree`, even when the two runs use
different item generators: no transition's control behaviour inspects the
buffer contents or the generated values. -/
theorem schedStep_controlAgree (cap N : Nat) (f g : Nat → Int) (w : Who)
    {t u : SysState} (ha : ControlAgree t u) :
    ControlAgree (schedStep cap N f w t) (schedStep cap N g w u) := by
  obtain ⟨h1, h2, h3, h4, h5, h6, h7, h8, h9⟩ := ha
  cases w with
  | prod =>
      simp only [schedStep]
      unfold producer_step
      cases hppc : t.ppc <;> rw [hppc] at h6 <;> rw [← h6]
      case pWait =>
        rw [← h1]
        by_cases he : t.empty_semaphore = 0
        · simp only [he, if_true, Option.getD_none]
          exact ⟨h1, h2, h3, h4, h5, hppc.trans h6, h7, h8, h9⟩
        · simp only [he, if_false, Option.getD_some]
          exact ⟨by rw [h1], h2, h3, h4, h5, rfl, h7, h8, h9⟩
      case pLock =>
        rw [← h3]
        cases hl : t.lock with
        | none =>
            simp only [Option.getD_some]
            exact ⟨h1, h2, rfl, h4, h5, rfl, h7, h8, h9⟩
        | some w' =>
            simp only [Option.getD_none]
            exact ⟨h1, h2, h3, h4, h5, hppc.trans h6, h7, h8, h9⟩
      case pWrite =>
        rw [← h4, ← h9]
        simp only [Option.getD_some]
        exact ⟨h1, h2, h3, by rw [h4], h5, rfl, h7, h8, rfl⟩
      case pUnlock =>
        simp only [Option.getD_some]
        exact ⟨h1, h2, rfl, h4, h5, rfl, h7, h8, h9⟩
      case pPost =>
        rw [← h2, ← h4]
        simp only [Option.getD_some]
        exact ⟨h1, by rw [h2], h3, rfl, h5, rfl, h7, h8, h9⟩
      case pDone =>
        simp only [Option.getD_none]
        exact ⟨h1, h2, h3, h4, h5, hppc.trans h6, h7, h8, h9⟩
  | cons =>
      simp only [schedStep]
      unfold consumer_step
      cases hcpc : t.cpc <;> rw [hcpc] at h7 <;> rw [← h7]
      case cWait =>
        rw [← h2]
        by_cases hf : t.full_semaphore = 0
        · simp only [hf, if_true, Option.getD_none]
          exact ⟨h1, h2, h3, h4, h5, h6, hcpc.trans h7, h8, h9⟩
        · simp only [hf, if_false, Option.getD_some]
          exact ⟨h1, by rw [h2], h3, h4, h5, h6, rfl, h8, h9⟩
      case cLock =>
        rw [← h3]
        cases hl : t.lock with
        | none =>
            simp only [Option.getD_some]
            exact ⟨h1, h2, rfl, h4, h5, h6, rfl, h8, h9⟩
        | some w' =>
            simp only [Option.getD_none]
            exact ⟨h1, h2, h3, h4, h5, h6, hcpc.trans h7, h8, h9⟩
      case cCons =>
        rw [← h5, ← h8]
        simp only [Option.getD_some]
        exact ⟨h1, h2, h3, h4, by rw [h5], h6, rfl, rfl, h9⟩
      case cUnlock =>
        simp only [Option.getD_some]
        exact ⟨h1, h2, rfl, h4, h5, h6, rfl, h8, h9⟩
      case cPost =>
        rw [← h1, ← h5]
        simp only [Option.getD_some]
        exact ⟨by rw [h1], h2, h3, h4, rfl, h6, rfl, h8, h9⟩
      case cDone =>
        simp only [Option.getD_none]
        exact ⟨h1, h2, h3, h4, h5, h6, hcpc.trans h7, h8, h9⟩

theorem runSched_controlAgree (cap N : Nat) (f g : Nat → Int) (sched : List Who)
    {t u : SysState} (ha : ControlAgree t u) :
    ControlAgree (runSched cap N f sched t) (runSched cap N g sched u) := by
  induction sched generalizing t u with
  | nil => simpa [runSched] using ha
  | cons w ws ih =>
      have h1 := schedStep_controlAgree cap N f g w ha
      have := ih h1
      simpa [runSched, List.foldl_cons] using this

/-- C9: the consumer's observable behaviour is independent of the values
the producer stores.  (a) Runs under the same schedule with two arbitrary
item generators f and g agree on the consumer's entire view — its program
counter, its loop counter, and the exact sequence of `Consumed i` lines —
because the consumer never reads the slot array.  (b) In every reachable
state the consumed-line sequence is `0, 1, ..., consumer_index - 1`,
i.e. it depends only on the consumer's own loop counter (in the reference
run: `Consumed 0` through `Consumed 99`). -/
theorem consumer_independent_of_produced_values (cap N : Nat)
    (f g : Nat → Int) (sched : List Who) (s : SysState) (hs : Reach cap N f s) :
    consumer_view (runSched cap N f sched (initState cap))
      = consumer_view (runSched cap N g sched (initState cap))
    ∧ s.cons_log = List.range s.consumer_index := by
  constructor
  · have agree : ControlAgree (runSched cap N f sched (initState cap))
        (runSched cap N g sched (initState cap)) :=
      runSched_controlAgree cap N f g sched
        ⟨rfl, rfl, rfl, rfl, rfl, rfl, rfl, rfl, rfl⟩
    obtain ⟨_, _, _, _, h5, _, h7, h8, _⟩ := agree
    simp [consumer_view, h5, h7, h8]
  · obtain ⟨_, _, _, _, _, _, _, hC, _, _⟩ := reach_inv hs
    exact hC

/-- Witness for C9 with two different generators (factorial vs the constant
17 generator) under the alternating schedule, at a mid-run reachable state. -/
theorem consumer_independent_of_produced_values_witness :
    consumer_view (runSched 2 2 produce_item roundRobin (initState 2))
      = consumer_view (runSched 2 2 (fun _ => (17 : Int)) roundRobin (initState 2))
    ∧ (runSched 2 2 produce_item roundRobin (initState 2)).cons_log
        = List.range (runSched 2 2 produce_item roundRobin (initState 2)).consumer_index :=
  consumer_independent_of_produced_values 2 2 produce_item (fun _ => (17 : Int))
    roundRobin _ (reach_runSched roundRobin Reach.init)

theorem runFrom_all_ok (sc : Scenario) (l : List MainOp)
    (h : ∀ o ∈ l, sc o = Outcome.ok) :
    runFrom sc l = { exitCode := 0, output := [], executed := l } := by
  induction l with
  | nil => rfl
  | cons op rest ih =>
      have hop : sc op = Outcome.ok := h op (List.mem_cons_self op rest)
      rw [runFrom, hop]
      rw [ih (fun o ho => h o (List.mem_cons_of_mem op ho))]

theorem runFrom_first_fail (sc : Scenario) (pre : List MainOp) (op : MainOp)
    (post : List MainOp) (ret errn : Int)
    (hpre : ∀ o ∈ pre, sc o = Outcome.ok) (hop : sc op = Outcome.fail ret errn) :
    runFrom sc (pre ++ op :: post)
      = { exitCode := 1
          output := [{ chan := Chan.stdout, text := msgTextOf op, code := msgCode op ret errn }]
          executed := pre ++ [op] } := by
  induction pre with
  | nil => simp [runFrom, hop]
  | cons o rest ih =>
      have ho : sc o = Outcome.ok := hpre o (List.mem_cons_self o rest)
      have hrest : ∀ o2 ∈ rest, sc o2 = Outcome.ok :=
        fun o2 h2 => hpre o2 (List.mem_cons_of_mem o h2)
      rw [List.cons_append, runFrom, ho, ih hrest]
      rfl

/-- C6 counterexample, two concrete inputs refuting two clauses of the
claim.  (a) When buffer allocation fails, the process does exit non-zero,
but its single diagnostic goes to standard output — `printf`, not the error
channel — and carries no OS error code at all.  (b) The message does not
always identify which operation failed: the run where only
`sem_destroy(&full_semaphore)` fails and the run where only
`sem_destroy(&empty_semaphore)` fails (same errno) produce byte-identical
process output, because lines 209 and 216 print the same (misnamed) text
`Could not destroy mutex semaphore, error code = %d`. -/
theorem failure_reporting_counterexample :
    ((runMain (scFailAt MainOp.allocBuffer (-1) 12)).exitCode = 1
      ∧ (runMain (scFailAt MainOp.allocBuffer (-1) 12)).output
          = [{ chan := Chan.stdout, text := MsgText.allocFail, code := none }]
      ∧ ¬ ∃ m ∈ (runMain (scFailAt MainOp.allocBuffer (-1) 12)).output,
          m.chan = Chan.stderr ∧ m.code ≠ none)
    ∧ (runMain (scFailAt MainOp.fullSemDestroy (-1) 13)).output
        = (runMain (scFailAt MainOp.emptySemDestroy (-1) 13)).output := by
  refine ⟨⟨?_, ?_, ?_⟩, ?_⟩ <;> decide

/-- C6 (amended): the process exits 0 with no diagnostic when every
operation succeeds; when an operation fails, the process exits 1 preceded
by exactly one human-readable message on standard output (not a dedicated
error channel).  The message's fixed text names the failing operation for
every operation except the two semaphore destroys, which print one
byte-identical text (misnaming either operation as a mutex semaphore), so
those two failures are indistinguishable from the output.  The message
carries the numeric code given by `msgCode` — the call's return value for
the pthread operations, `errno` for the full-semaphore init and the two
semaphore destroys, the return value (not `errno`) for the empty-semaphore
init, and no code at all for the buffer-allocation failure. -/
theorem failure_reporting_and_exit_codes (sc : Scenario) :
    ((∀ o ∈ mainOrder, sc o = Outcome.ok) →
        (runMain sc).exitCode = 0 ∧ (runMain sc).output = [])
    ∧ (∀ pre op post ret errn, mainOrder = pre ++ op :: post →
        (∀ o ∈ pre, sc o = Outcome.ok) → sc op = Outcome.fail ret errn →
        (runMain sc).exitCode = 1
        ∧ (runMain sc).output
            = [{ chan := Chan.stdout, text := msgTextOf op, code := msgCode op ret errn }])
    ∧ msgTextOf MainOp.fullSemDestroy = msgTextOf MainOp.emptySemDestroy
    ∧ (∀ o1 o2 : MainOp, msgTextOf o1 = msgTextOf o2 →
        o1 = o2
        ∨ ((o1 = MainOp.fullSemDestroy ∨ o1 = MainOp.emptySemDestroy)
            ∧ (o2 = MainOp.fullSemDestroy ∨ o2 = MainOp.emptySemDestroy))) := by
  refine ⟨?_, ?_, rfl, by decide⟩
  · intro h
    rw [runMain, runFrom_all_ok sc mainOrder h]
    exact ⟨rfl, rfl⟩
  · intro pre op post ret errn hdecomp hpre hop
    rw [runMain, hdecomp, runFrom_first_fail sc pre op post ret errn hpre hop]
    exact ⟨rfl, rfl⟩

/-- Witness for C6 (amended) at the concrete scenario in which
`pthread_mutex_init` fails with return value 3: the message names the mutex
initialisation and carries its return value. -/
theorem failure_reporting_and_exit_codes_witness :
    (runMain (scFailAt MainOp.mutexInit 3 5)).exitCode = 1
    ∧ (runMain (scFailAt MainOp.mutexInit 3 5)).output
        = [{ chan := Chan.stdout, text := msgTextOf MainOp.mutexInit,
             code := msgCode MainOp.mutexInit 3 5 }] :=
  (failure_reporting_and_exit_codes (scFailAt MainOp.mutexInit 3 5)).2.1
    [MainOp.allocBuffer] MainOp.mutexInit
    [MainOp.fullSemInit, MainOp.emptySemInit,
     MainOp.prodAttrInit, MainOp.consAttrInit, MainOp.consCreate, MainOp.prodCreate,
     MainOp.prodJoin, MainOp.consJoin, MainOp.prodAttrDestroy, MainOp.consAttrDestroy,
     MainOp.mutexDestroy, MainOp.fullSemDestroy, MainOp.emptySemDestroy]
    3 5 (by decide) (by decide) (by decide)

theorem mainOrder_nodup : mainOrder.Nodup := by decide

/-- In `main`'s operation order, everything before a non-teardown operation
is itself a non-teardown operation (all cleanup comes last). -/
theorem mainOrder_primary_front :
    ∀ n, n < 15 → ∀ op : MainOp, mainOrder[n]? = some op →
      isTeardown op = false → ∀ o ∈ mainOrder.take n, isTeardown o = false := by
  decide

/-- C7 counterexample: in the run where `pthread_attr_destroy(&producer_attr)`
is the (only) failing call, cleanup does not continue best-effort: the
process exits 1 at once and none of the four remaining teardown operations
is ever attempted. -/
theorem teardown_policy_counterexample :
    (runMain (scFailAt MainOp.prodAttrDestroy (-1) 22)).exitCode = 1
    ∧ MainOp.consAttrDestroy ∉ (runMain (scFailAt MainOp.prodAttrDestroy (-1) 22)).executed
    ∧ MainOp.mutexDestroy ∉ (runMain (scFailAt MainOp.prodAttrDestroy (-1) 22)).executed
    ∧ MainOp.fullSemDestroy ∉ (runMain (scFailAt MainOp.prodAttrDestroy (-1) 22)).executed
    ∧ MainOp.emptySemDestroy ∉ (runMain (scFailAt MainOp.prodAttrDestroy (-1) 22)).executed := by
  refine ⟨?_, ?_, ?_, ?_, ?_⟩ <;> decide

/-- C7 (amended): any failure exits immediately, so (a) when the first
failing operation is a primary (non-teardown) one, no teardown operation is
ever attempted — a teardown failure therefore can never coexist with, let
alone mask, an already-detected primary failure — and (b) when the first
failing operation is a teardown one, the failure is reported (exit code 1,
one message with that operation's text and code, though the two semaphore
destroys share one text) but the process aborts on the spot: exactly the
operations up to and including the failing one were attempted and every
later teardown operation is skipped, rather than cleanup continuing
best-effort. -/
theorem teardown_failure_policy (sc : Scenario) (pre : List MainOp)
    (op : MainOp) (post : List MainOp) (ret errn : Int)
    (hdecomp : mainOrder = pre ++ op :: post)
    (hpre : ∀ o ∈ pre, sc o = Outcome.ok) (hop : sc op = Outcome.fail ret errn) :
    (isTeardown op = false →
        ∀ t ∈ (runMain sc).executed, isTeardown t = false)
    ∧ (isTeardown op = true →
        (runMain sc).exitCode = 1
        ∧ (runMain sc).output
            = [{ chan := Chan.stdout, text := msgTextOf op, code := msgCode op ret errn }]
        ∧ (runMain sc).executed = pre ++ [op]
        ∧ ∀ t ∈ post, t ∉ (runMain sc).executed) := by
  have hrun : runMain sc
      = { exitCode := 1
          output := [{ chan := Chan.stdout, text := msgTextOf op, code := msgCode op ret errn }]
          executed := pre ++ [op] } := by
    rw [runMain, hdecomp, runFrom_first_fail sc pre op post ret errn hpre hop]
  have hlen : pre.length < mainOrder.length := by
    rw [hdecomp, List.length_append, List.length_cons]
    omega
  have hlen15 : pre.length < 15 := by
    have : mainOrder.length = 15 := by decide
    omega
  have htake : mainOrder.take pre.length = pre := by
    rw [hdecomp]
    exact List.take_left pre (op :: post)
  have hget : mainOrder[pre.length]? = some op := by
    rw [hdecomp, List.getElem?_append_right (le_refl pre.length)]
    simp
  constructor
  · intro hopF t ht
    rw [hrun] at ht
    rcases List.mem_append.mp ht with h1 | h2
    · exact mainOrder_primary_front pre.length hlen15 op hget hopF t
        (by rw [htake]; exact h1)
    · rw [List.mem_singleton.mp h2]
      exact hopF
  · intro _
    rw [hrun]
    refine ⟨rfl, rfl, rfl, ?_⟩
    intro t htpost htmem
    have hnd : (pre ++ op :: post).Nodup := by
      rw [← hdecomp]
      exact mainOrder_nodup
    rcases List.mem_append.mp htmem with h1 | h2
    · exact (List.disjoint_of_nodup_append hnd) h1 (List.mem_cons_of_mem op htpost)
    · have hnd2 : (op :: post).Nodup := hnd.of_append_right
      rw [List.mem_singleton.mp h2] at htpost
      exact (List.nodup_cons.mp hnd2).1 htpost

/-- Witness for C7 (amended) at the concrete scenario in which
`sem_destroy(&full_semaphore)` fails with errno 13: the last cleanup
operation (`sem_destroy(&empty_semaphore)`) is skipped. -/
theorem teardown_failure_policy_witness :
    (isTeardown MainOp.fullSemDestroy = false →
        ∀ t ∈ (runMain (scFailAt MainOp.fullSemDestroy (-1) 13)).executed,
          isTeardown t = false)
    ∧ (isTeardown MainOp.fullSemDestroy = true →
        (runMain (scFailAt MainOp.fullSemDestroy (-1) 13)).exitCode = 1
        ∧ (runMain (scFailAt MainOp.fullSemDestroy (-1) 13)).output
            = [{ chan := Chan.stdout, text := msgTextOf MainOp.fullSemDestroy,
                 code := msgCode MainOp.fullSemDestroy (-1) 13 }]
        ∧ (runMain (scFailAt MainOp.fullSemDestroy (-1) 13)).executed
            = [MainOp.allocBuffer, MainOp.mutexInit, MainOp.fullSemInit,
               MainOp.emptySemInit, MainOp.prodAttrInit, MainOp.consAttrInit,
               MainOp.consCreate, MainOp.prodCreate, MainOp.prodJoin,
               MainOp.consJoin, MainOp.prodAttrDestroy, MainOp.consAttrDestroy,
               MainOp.mutexDestroy] ++ [MainOp.fullSemDestroy]
        ∧ ∀ t ∈ [MainOp.emptySemDestroy],
            t ∉ (runMain (scFailAt MainOp.fullSemDestroy (-1) 13)).executed) :=
  teardown_failure_policy (scFailAt MainOp.fullSemDestroy (-1) 13)
    [MainOp.allocBuffer, MainOp.mutexInit, MainOp.fullSemInit,
     MainOp.emptySemInit, MainOp.prodAttrInit, MainOp.consAttrInit,
     MainOp.consCreate, MainOp.prodCreate, MainOp.prodJoin,
     MainOp.consJoin, MainOp.prodAttrDestroy, MainOp.consAttrDestroy,
     MainOp.mutexDestroy]
    MainOp.fullSemDestroy [MainOp.emptySemDestroy] (-1) 13
    (by decide) (by decide) (by decide)

end BoundedBuffer
